import Mathlib

/-!
Verification development for a log-structured key/value storage engine
(`src/engines/kvs.rs`). Pure Rust functions are shallowly embedded as Lean
functions; the stateful writer, reader handles and on-disk directory are
embedded as explicit state passing over an executable `Store` type.

Conventions of the embedding:
* A log segment (`<gen>.log` file) is a `List LogItem`; a `LogItem.good c`
  is the serde_json serialization of command `c` (occupying `encLen c`
  bytes), a `LogItem.bad n` stands for `n` bytes that do not parse as a
  command (a truncated or corrupted tail).
* Byte lengths of records follow serde_json's externally tagged compact
  encoding, including JSON string escaping.
* `BTreeMap<u64, BufReaderWithPosition>` descriptor caches are modelled by
  their key sets (`List Nat`): every read seeks before reading, so only
  which generations are cached is observable.
* A Rust panic (a failing `.unwrap()`) is modelled by a dedicated
  `panicked` outcome, distinct from returning a `KvsError`.
-/

set_option autoImplicit false

/-- Model: `Command` from `kvs.rs`: the unit of persistence. -/
inductive Command : Type
  | set (key value : String)
  | remove (key : String)
deriving DecidableEq

/-- Number of bytes serde_json emits for one character inside a JSON string:
`"` and `\` are escaped to two bytes, the control characters BS, TAB, LF, FF,
CR to two-byte short escapes, other control characters to six-byte `\u00XX`
escapes, and everything else is emitted as raw UTF-8. -/
def escCharLen (c : Char) : Nat :=
  if c = '"' ∨ c = '\\' then 2
  else if c.toNat < 32 then
    if c.toNat = 8 ∨ c.toNat = 9 ∨ c.toNat = 10 ∨ c.toNat = 12 ∨ c.toNat = 13 then 2
    else 6
  else c.utf8Size

/-- Byte length of the JSON string escaping of `s` (without the quotes). -/
def escLen (s : String) : Nat := (s.data.map escCharLen).sum

/-- Byte length of `serde_json::to_writer` output for a `Command`:
`Set` serializes as `\x7b"Set":\x7b"key":"…","value":"…"\x7d\x7d`
(29 framing bytes) and `Remove` as `\x7b"Remove":\x7b"key":"…"\x7d\x7d`
(21 framing bytes). -/
def encLen : Command → Nat
  | .set k v => 29 + escLen k + escLen v
  | .remove k => 21 + escLen k

/-- One item of a log segment: a well-formed serialized command, or `n`
bytes that do not parse (partial/corrupt data). -/
inductive LogItem : Type
  | good (c : Command)
  | bad (n : Nat)
deriving DecidableEq

/-- Bytes occupied by a `LogItem` in its segment. -/
def LogItem.byteLen : LogItem → Nat
  | .good c => encLen c
  | .bad n => n

/-- Decides whether a log item is a well-formed record. -/
def LogItem.isGood : LogItem → Bool
  | .good _ => true
  | .bad _ => false

/-- Total byte length of a segment. -/
def segLen (s : List LogItem) : Nat := (s.map LogItem.byteLen).sum

/-- Model: `CommandPosition` from `kvs.rs`: generation, byte offset and byte
length of one serialized command. -/
structure CommandPosition where
  generation_num : Nat
  position : Nat
  length : Nat
deriving DecidableEq

/-- Model: `KvsError` from `errors.rs` (payloads of `Io`, `Serde`, `SledError`
and `Utf8Error` are irrelevant to the claims and elided). -/
inductive KvsError : Type
  | io
  | serde
  | keyNotFound
  | unexpectedCommandType
  | stringError (s : String)
  | sledError
  | utf8Error
deriving DecidableEq

/-- Seek to byte `pos` of a segment and deserialize one command from the
next `len` bytes (the effect of `reader.take(length)` plus
`serde_json::from_reader`). The read succeeds exactly when `pos` is the
start of a well-formed record of byte length `len`; reading from the
middle of a record, across a record boundary, or into corrupt bytes is a
deserialization failure (`none`). `cur` is the byte offset of the current
head of the item list. -/
def recordAt : List LogItem → Nat → Nat → Nat → Option Command
  | [], _, _, _ => none
  | .good c :: rest, cur, pos, len =>
    if cur = pos then (if encLen c = len then some c else none)
    else recordAt rest (cur + encLen c) pos len
  | .bad n :: rest, cur, pos, len => recordAt rest (cur + n) pos len

/-- The effect of `io::copy` out of `reader.take(length)` at `pos`:
a well-aligned record is copied verbatim (byte-identical, no
deserialize/reserialize round trip); anything else copies up to `len`
raw bytes, which land as unparseable data. Returns the copied item and
the number of bytes copied. -/
def copyAt (seg : List LogItem) (pos len : Nat) : LogItem × Nat :=
  match recordAt seg 0 pos len with
  | some c => (.good c, len)
  | none => (.bad (min len (segLen seg - pos)), min len (segLen seg - pos))

/-- First-match association-list lookup (used to model the skip-list index,
the on-disk directory and the descriptor caches; all of them have
duplicate-free keys in every reachable state). -/
def assocLookup {κ α : Type} [DecidableEq κ] (k : κ) : List (κ × α) → Option α
  | [] => none
  | (k', v) :: rest => if k' = k then some v else assocLookup k rest

/-- Insert-or-replace, matching `SkipMap::insert` / `BTreeMap::insert`. -/
def assocInsert {κ α : Type} [DecidableEq κ] (k : κ) (v : α) : List (κ × α) → List (κ × α)
  | [] => [(k, v)]
  | (k', v') :: rest => if k' = k then (k, v) :: rest else (k', v') :: assocInsert k v rest

/-- Key removal, matching `SkipMap::remove` / `BTreeMap::remove`. -/
def assocErase {κ α : Type} [DecidableEq κ] (k : κ) : List (κ × α) → List (κ × α)
  | [] => []
  | (k', v') :: rest => if k' = k then rest else (k', v') :: assocErase k rest

/-- The keys of an association list are pairwise distinct. -/
def NoDupKeys {κ α : Type} (l : List (κ × α)) : Prop := (l.map Prod.fst).Nodup

/-- The data directory: generation number to segment contents. -/
abbrev Dir := List (Nat × List LogItem)

/-- Model: `new_log_file`: `OpenOptions::create(true).append(true)` — creates the
file when absent, keeps existing contents otherwise. -/
def dirEnsure (g : Nat) (d : Dir) : Dir :=
  match assocLookup g d with
  | some _ => d
  | none => d ++ [(g, [])]

/-- Append one item to segment `g` (creating the file when absent). -/
def dirAppendItem (g : Nat) (it : LogItem) (d : Dir) : Dir :=
  match assocLookup g d with
  | some seg => assocInsert g (seg ++ [it]) d
  | none => d ++ [(g, [it])]

/-- Model: `KvStoreReader::close_stale_handlers`: repeatedly evict the smallest
cached generation while it is strictly below the safe point — i.e. drop
exactly the cached generations `< sp`. -/
def closeStale (sp : Nat) (cache : List Nat) : List Nat :=
  cache.filter (fun g => sp ≤ g)

/-- Model: `BTreeMap::insert` on the descriptor cache, observed as a key set. -/
def cacheInsert (g : Nat) (cache : List Nat) : List Nat :=
  if g ∈ cache then cache else g :: cache

/-- Outcome of `KvStoreReader::read_command`. -/
inductive ReadOut : Type
  | ok (c : Command)
  | err (e : KvsError)
  | panicked
deriving DecidableEq

/-- Model: `KvStoreReader::read_and` specialized to `read_command`, from
`kvs.rs` lines 222–249. Returns the outcome, the updated descriptor
cache, and the list of generations whose log file was opened by this
call. Note that the source checks `readers.contains_key(&cmd_position.position)`
— the byte *position*, not the generation — before opening; when that
check passes but `cmd_position.generation_num` is not cached, the final
`readers.get_mut(&cmd_position.generation_num).unwrap()` panics. -/
def readCommandR (d : Dir) (sp : Nat) (cache : List Nat) (cp : CommandPosition) :
    ReadOut × List Nat × List Nat :=
  let c1 := closeStale sp cache
  if cp.position ∈ c1 then
    if cp.generation_num ∈ c1 then
      match assocLookup cp.generation_num d with
      | some seg =>
        match recordAt seg 0 cp.position cp.length with
        | some c => (.ok c, c1, [])
        | none => (.err .serde, c1, [])
      | none => (.err .io, c1, [])
    else (.panicked, c1, [])
  else
    match assocLookup cp.generation_num d with
    | none => (.err .io, c1, [])
    | some seg =>
      let c2 := cacheInsert cp.generation_num c1
      match recordAt seg 0 cp.position cp.length with
      | some c => (.ok c, c2, [cp.generation_num])
      | none => (.err .serde, c2, [cp.generation_num])

/-- Outcome of `read_and` specialized to the `io::copy` closure used by
compaction. -/
inductive CopyOut : Type
  | ok (it : LogItem) (len : Nat)
  | err (e : KvsError)
  | panicked
deriving DecidableEq

/-- Model: `read_and` with the `io::copy` body (compaction's read path); same
descriptor-cache protocol as `readCommandR`. -/
def readCopyR (d : Dir) (sp : Nat) (cache : List Nat) (cp : CommandPosition) :
    CopyOut × List Nat :=
  let c1 := closeStale sp cache
  if cp.position ∈ c1 then
    if cp.generation_num ∈ c1 then
      match assocLookup cp.generation_num d with
      | some seg =>
        let r := copyAt seg cp.position cp.length
        (.ok r.1 r.2, c1)
      | none => (.err .io, c1)
    else (.panicked, c1)
  else
    match assocLookup cp.generation_num d with
    | none => (.err .io, c1)
    | some seg =>
      let r := copyAt seg cp.position cp.length
      (.ok r.1 r.2, cacheInsert cp.generation_num c1)

/-- The shared mutable state of one `KvStore`: the data directory, the
in-memory index, the writer's fields (`current_generation_number`,
`writer.position`, `uncompacted`), the shared `safe_point`, and the
descriptor cache of the writer's private reader clone (used by
compaction). The reader pool is passed separately to `storeGet`. -/
structure Store where
  dir : Dir
  index : List (String × CommandPosition)
  currentGen : Nat
  writerPos : Nat
  uncompacted : Nat
  safePoint : Nat
  wrCache : List Nat
deriving DecidableEq

/-- Model: `COMPACTION_THRESHOLD` from `kvs.rs` line 25. -/
def COMPACTION_THRESHOLD : Nat := 1024 * 1024

/-- Outcome of a writer operation (`set`, `remove`, `compact`). -/
inductive WOut : Type
  | ok
  | err (e : KvsError)
  | panicked
deriving DecidableEq

/-- State threaded through compaction's per-entry loop: the compaction
reader's descriptor cache, the compaction segment written so far, the
`new_position` counter, and the index. -/
structure CompState where
  cache : List Nat
  seg : List LogItem
  newPos : Nat
  index : List (String × CommandPosition)
deriving DecidableEq

/-- The `for entry in self.index.iter()` loop of `KvStoreWriter::compact`:
read each live entry through the writer's reader handle, copy its bytes to
the compaction segment, and atomically replace the index entry with
`(comp_gen, new_position..new_position + len)`. A failing read aborts the
loop (`?` propagation); a panic aborts the thread. -/
def compactLoop (d : Dir) (sp cg : Nat) :
    List (String × CommandPosition) → CompState → WOut × CompState
  | [], st => (.ok, st)
  | (k, cp) :: rest, st =>
    match readCopyR d sp st.cache cp with
    | (.ok it len, c') =>
      compactLoop d sp cg rest
        { cache := c', seg := st.seg ++ [it], newPos := st.newPos + len,
          index := assocInsert k ⟨cg, st.newPos, len⟩ st.index }
    | (.err e, c') => (.err e, { st with cache := c' })
    | (.panicked, c') => (.panicked, { st with cache := c' })

/-- Model: `KvStoreWriter::compact` (`kvs.rs` lines 305–355): pick
`comp_gen = current + 1`, move the writer to `current + 2` (fresh file,
position 0), copy every live record into the compaction segment while
reindexing it, flush, advance the safe point to `comp_gen`, close stale
descriptors, unlink every segment with generation `< comp_gen`, and reset
`uncompacted`. On an error or panic inside the copy loop the writer has
already advanced to `current + 2` and the partially rewritten index
remains, but the safe point and `uncompacted` are untouched. -/
def compact (s : Store) : WOut × Store :=
  let cg := s.currentGen + 1
  let cur := s.currentGen + 2
  let d1 := dirEnsure cg (dirEnsure cur s.dir)
  match compactLoop d1 s.safePoint cg s.index
      { cache := s.wrCache, seg := [], newPos := 0, index := s.index } with
  | (.ok, st) =>
    (.ok, { dir := (assocInsert cg st.seg d1).filter (fun p => cg ≤ p.1),
            index := st.index, currentGen := cur, writerPos := 0,
            uncompacted := 0, safePoint := cg,
            wrCache := closeStale cg st.cache })
  | (.err e, st) =>
    (.err e, { s with
               dir := d1, index := st.index, currentGen := cur,
               writerPos := 0, wrCache := st.cache })
  | (.panicked, st) =>
    (.panicked, { s with
                  dir := d1, index := st.index, currentGen := cur,
                  writerPos := 0, wrCache := st.cache })

/-- Model: `KvStoreWriter::set` (`kvs.rs` lines 273–297). The failure oracle `io`
models the `serde_json::to_writer`/`flush` step: `none` means it succeeds,
`some m` means it fails (an `Io`/`Serde` error, surfaced here as `.io`)
after `m` bytes of unparseable partial data reached the segment. Note the
index is only touched after the append step has succeeded, and the
threshold check runs after the insert. -/
def writerSet (io : Option Nat) (s : Store) (k v : String) : WOut × Store :=
  let cmd := Command.set k v
  let position := s.writerPos
  match io with
  | some m =>
    (.err .io, { s with
                 dir := dirAppendItem s.currentGen (.bad m) s.dir,
                 writerPos := s.writerPos + m })
  | none =>
    let newPos := position + encLen cmd
    let s1 : Store := { s with
      dir := dirAppendItem s.currentGen (.good cmd) s.dir,
      writerPos := newPos }
    let s2 : Store := { s1 with
      uncompacted := match assocLookup k s.index with
        | some old => s1.uncompacted + old.length
        | none => s1.uncompacted,
      index := assocInsert k ⟨s.currentGen, position, newPos - position⟩ s.index }
    if s2.uncompacted > COMPACTION_THRESHOLD then compact s2 else (.ok, s2)

/-- Model: `KvStoreWriter::remove` (`kvs.rs` lines 357–378): fail with
`KeyNotFound` when the key is absent; otherwise append a `Remove` record,
evict the index entry, add both the evicted entry's length and the
`Remove` record's own length to `uncompacted`, and maybe compact. Same
failure oracle as `writerSet`. -/
def writerRemove (io : Option Nat) (s : Store) (k : String) : WOut × Store :=
  match assocLookup k s.index with
  | none => (.err .keyNotFound, s)
  | some old =>
    let cmd := Command.remove k
    let position := s.writerPos
    match io with
    | some m =>
      (.err .io, { s with
                   dir := dirAppendItem s.currentGen (.bad m) s.dir,
                   writerPos := s.writerPos + m })
    | none =>
      let newPos := position + encLen cmd
      let s1 : Store := { s with
        dir := dirAppendItem s.currentGen (.good cmd) s.dir,
        writerPos := newPos,
        index := assocErase k s.index,
        uncompacted := s.uncompacted + old.length + (newPos - position) }
      if s1.uncompacted > COMPACTION_THRESHOLD then compact s1 else (.ok, s1)

/-- Outcome of `KvStore::get` as observed by the caller of the engine. -/
inductive GOut : Type
  | ok (v : Option String)
  | err (e : KvsError)
  | panicked
deriving DecidableEq

/-- Model: `KvStore::get` (`kvs.rs` lines 135–169): consult the index first; only
on a hit pop a reader handle from the pool (head of the queue), read the
command, and push the handle back (tail of the queue). On a hit with an
empty pool fail with `StringError "No more readers"`. On a read error the
`?` returns before the push, so the handle is dropped from the pool; a
panicking read kills the worker thread, likewise dropping the handle. -/
def storeGet (s : Store) (pool : List (List Nat)) (k : String) :
    GOut × List (List Nat) :=
  match assocLookup k s.index with
  | none => (.ok none, pool)
  | some cp =>
    match pool with
    | [] => (.err (.stringError "No more readers"), [])
    | c :: rest =>
      match readCommandR s.dir s.safePoint c cp with
      | (.ok (.set _ v), c', _) => (.ok (some v), rest ++ [c'])
      | (.ok (.remove _), c', _) => (.err .unexpectedCommandType, rest ++ [c'])
      | (.err e, _, _) => (.err e, rest)
      | (.panicked, _, _) => (.panicked, rest)

/-- Model: `load` (`kvs.rs` lines 384–414): stream commands out of one segment,
maintaining the index and the reclaimable-byte count. A malformed item
makes `stream.next()` yield an error which `cmd?` propagates immediately —
entries inserted so far stay in the (shared, in-place mutated) index,
which is returned alongside the error. -/
def load (g : Nat) : List LogItem → List (String × CommandPosition) → Nat → Nat →
    Except KvsError Nat × List (String × CommandPosition)
  | [], idx, _, unc => (.ok unc, idx)
  | .bad _ :: _, idx, _, _ => (.error .serde, idx)
  | .good c :: rest, idx, pos, unc =>
    let newPos := pos + encLen c
    match c with
    | .set k _ =>
      let unc' := match assocLookup k idx with
        | some old => unc + old.length
        | none => unc
      load g rest (assocInsert k ⟨g, pos, newPos - pos⟩ idx) newPos unc'
    | .remove k =>
      let unc' := match assocLookup k idx with
        | some old => unc + old.length
        | none => unc
      load g rest (assocErase k idx) newPos (unc' + (newPos - pos))

/-- Insert into a list sorted ascending. -/
def insertSorted (x : Nat) : List Nat → List Nat
  | [] => [x]
  | y :: rest => if x ≤ y then x :: y :: rest else y :: insertSorted x rest

/-- Model: `sorted_generation_number_list`: the generation numbers present in the
directory, sorted ascending. -/
def sortGens (l : List Nat) : List Nat := l.foldr insertSorted []

/-- The `for &generation_number in &generation_number_list` loop of
`KvStore::open`: load every segment in ascending generation order,
accumulating the index and `uncompacted += load(...)`. -/
def loadAll : List Nat → Dir → List (String × CommandPosition) → Nat →
    Except KvsError Nat × List (String × CommandPosition)
  | [], _, idx, unc => (.ok unc, idx)
  | g :: rest, files, idx, unc =>
    match assocLookup g files with
    | none => (.error .io, idx)
    | some items =>
      match load g items idx 0 unc with
      | (.ok unc', idx') => loadAll rest files idx' unc'
      | (.error e, idx') => (.error e, idx')

/-- Model: `KvStore::open` (`kvs.rs` lines 51–105): enumerate segments, replay
them in ascending generation order (errors propagate via `?`), start the
writer on a fresh generation `max + 1` (default 1), with `safe_point = 0`
and an empty descriptor cache on the writer's reader clone. -/
def openStore (files : Dir) : Except KvsError Store :=
  let gens := sortGens (files.map Prod.fst)
  match loadAll gens files [] 0 with
  | (.error e, _) => .error e
  | (.ok unc, idx) =>
    let current := gens.getLast?.getD 0 + 1
    .ok { dir := dirEnsure current files, index := idx, currentGen := current,
          writerPos := 0, uncompacted := unc, safePoint := 0, wrCache := [] }

/-- Project an index down to the per-key byte length of its live record. -/
def projLen (idx : List (String × CommandPosition)) : List (String × Nat) :=
  idx.map (fun p => (p.1, p.2.length))

/-- Modelled from the claim wording for C10: one step of "replaying" a
command during recovery. The state is (live record length per key,
uncompacted counter): a `Set` that supersedes an existing entry adds the
superseded entry's length; a `Remove` adds the superseded entry's length
(when the key was present) and the `Remove` record's own byte length. -/
def specReplayStep : List (String × Nat) × Nat → Command → List (String × Nat) × Nat
  | (live, u), c =>
    match c with
    | .set k _ =>
      let u' := match assocLookup k live with
        | some m => u + m
        | none => u
      (assocInsert k (encLen c) live, u')
    | .remove k =>
      let u' := match assocLookup k live with
        | some m => u + m
        | none => u
      (assocErase k live, u' + encLen c)

/-- Fold `specReplayStep` over the items of one segment (well-formed items
carry the commands; malformed items are skipped — the claims using this
function assume none are present). -/
def specFoldSeg (st : List (String × Nat) × Nat) (items : List LogItem) :
    List (String × Nat) × Nat :=
  items.foldl
    (fun st' it => match it with
      | LogItem.good c => specReplayStep st' c
      | LogItem.bad _ => st') st

/-- Claim-side recovery accounting: replay all segments in ascending
generation order, carrying the live map across segment boundaries, and
return the accumulated uncompacted counter. -/
def specReplayUnc (files : Dir) : Nat :=
  ((sortGens (files.map Prod.fst)).map
      (fun g => match assocLookup g files with
        | some items => items
        | none => [])).foldl specFoldSeg ([], 0) |>.2

/-- Example segment 30 (a compacted segment holding two live `Set`
records, at offsets 0 and 31). -/
def exSeg30 : List LogItem :=
  [.good (.set "a" "b"), .good (.set "b" "bb")]

/-- Example segment 31 (the active write segment). -/
def exSeg31 : List LogItem := [.good (.set "c" "d")]

/-- Example directory right after a fifteenth compaction: compacted
output in generation 30, active writer generation 31. -/
def exDir : Dir := [(30, exSeg30), (31, exSeg31)]

/-- Example store over `exDir`: the index references the live records,
the safe point is the last compaction generation. -/
def exStore : Store :=
  { dir := exDir,
    index := [("a", ⟨30, 0, 31⟩), ("b", ⟨30, 31, 32⟩), ("c", ⟨31, 0, 31⟩)],
    currentGen := 31, writerPos := 31, uncompacted := 0,
    safePoint := 30, wrCache := [] }

/-- Witness store: one live key `a` over segment 1 (which also holds a
superseded key `q` and its `Remove` record). -/
def wSeg : List LogItem :=
  [.good (.set "a" "b"), .good (.set "q" "z"), .good (.remove "q")]

/-- Witness store with one live index entry. -/
def wStore : Store :=
  { dir := [(1, wSeg)], index := [("a", ⟨1, 0, 31⟩)], currentGen := 1,
    writerPos := 84, uncompacted := 53, safePoint := 0, wrCache := [] }

/-- Witness store sitting exactly at the compaction threshold. -/
def w9 : Store :=
  { dir := [(1, [.good (.set "a" "b"), .good (.set "b" "bb")])],
    index := [("a", ⟨1, 0, 31⟩), ("b", ⟨1, 31, 32⟩)],
    currentGen := 1, writerPos := 63, uncompacted := COMPACTION_THRESHOLD,
    safePoint := 0, wrCache := [] }

/-- Witness directory for recovery accounting: key `a` is set in
generation 1, overwritten and then removed in generation 2. -/
def wFiles : Dir :=
  [(1, [.good (.set "a" "1")]), (2, [.good (.set "a" "22"), .good (.remove "a")])]

theorem assocLookup_insert_self {κ α : Type} [DecidableEq κ] (k : κ) (v : α)
    (l : List (κ × α)) : assocLookup k (assocInsert k v l) = some v := by
  induction l with
  | nil => simp [assocInsert, assocLookup]
  | cons p rest ih =>
    obtain ⟨k', v'⟩ := p
    by_cases h : k' = k
    · simp [assocInsert, h, assocLookup]
    · simp [assocInsert, h, assocLookup, ih]

theorem assocLookup_mem {κ α : Type} [DecidableEq κ] {k : κ} {v : α} :
    ∀ {l : List (κ × α)}, assocLookup k l = some v → (k, v) ∈ l := by
  intro l
  induction l with
  | nil => intro h; simp [assocLookup] at h
  | cons p rest ih =>
    obtain ⟨k', v'⟩ := p
    intro h
    by_cases hk : k' = k
    · subst hk
      simp [assocLookup] at h
      subst h
      exact List.mem_cons_self _ _
    · simp [assocLookup, hk] at h
      exact List.mem_cons_of_mem _ (ih h)

theorem lookup_of_mem_keys {κ α : Type} [DecidableEq κ] {k : κ} :
    ∀ {l : List (κ × α)}, k ∈ l.map Prod.fst → ∃ v, assocLookup k l = some v := by
  intro l
  induction l with
  | nil => intro h; simp at h
  | cons p rest ih =>
    obtain ⟨k', v'⟩ := p
    intro h
    by_cases hk : k' = k
    · exact ⟨v', by simp [assocLookup, hk]⟩
    · have : k ∈ rest.map Prod.fst := by
        rcases List.mem_cons.1 h with h1 | h1
        · exact absurd h1.symm hk
        · exact h1
      obtain ⟨v, hv⟩ := ih this
      exact ⟨v, by simp [assocLookup, hk, hv]⟩

theorem mem_keys_assocInsert {κ α : Type} [DecidableEq κ] {x k : κ} {v : α} :
    ∀ {l : List (κ × α)}, x ∈ (assocInsert k v l).map Prod.fst →
      x = k ∨ x ∈ l.map Prod.fst := by
  intro l
  induction l with
  | nil => intro h; simp [assocInsert] at h; exact Or.inl h
  | cons p rest ih =>
    obtain ⟨k', v'⟩ := p
    intro h
    by_cases hk : k' = k
    · simp [assocInsert, hk] at h
      rcases h with h | h
      · exact Or.inl h
      · exact Or.inr (by simp [h])
    · simp [assocInsert, hk] at h
      rcases h with h | h
      · exact Or.inr (by simp [h])
      · rcases ih (by simpa using h) with h1 | h1
        · exact Or.inl h1
        · exact Or.inr (by simp [h1])

theorem noDupKeys_assocInsert {κ α : Type} [DecidableEq κ] {k : κ} {v : α}
    {l : List (κ × α)} (h : NoDupKeys l) : NoDupKeys (assocInsert k v l) := by
  induction l with
  | nil => simp [NoDupKeys, assocInsert]
  | cons p rest ih =>
    obtain ⟨k', v'⟩ := p
    rw [NoDupKeys, List.map_cons, List.nodup_cons] at h
    by_cases hk : k' = k
    · subst hk
      have heq : assocInsert k' v ((k', v') :: rest) = (k', v) :: rest := by
        rw [assocInsert, if_pos rfl]
      rw [NoDupKeys, heq, List.map_cons, List.nodup_cons]
      exact h
    · rw [NoDupKeys, assocInsert]
      simp only [if_neg hk]
      rw [List.map_cons, List.nodup_cons]
      constructor
      · intro hmem
        rcases mem_keys_assocInsert hmem with h1 | h1
        · exact hk h1
        · exact h.1 h1
      · exact ih h.2

theorem mem_assocInsert {κ α : Type} [DecidableEq κ] {p : κ × α} {k : κ} {v : α} :
    ∀ {l : List (κ × α)}, NoDupKeys l → p ∈ assocInsert k v l →
      p = (k, v) ∨ (p ∈ l ∧ p.1 ≠ k) := by
  intro l
  induction l with
  | nil => intro _ h; simp [assocInsert] at h; exact Or.inl h
  | cons q rest ih =>
    obtain ⟨k', v'⟩ := q
    intro hnd h
    rw [NoDupKeys, List.map_cons, List.nodup_cons] at hnd
    by_cases hk : k' = k
    · subst hk
      rw [assocInsert] at h
      simp only [if_pos rfl] at h
      rcases List.mem_cons.1 h with h1 | h1
      · exact Or.inl h1
      · refine Or.inr ⟨List.mem_cons_of_mem _ h1, ?_⟩
        intro hpk
        apply hnd.1
        have hm := List.mem_map_of_mem Prod.fst h1
        rwa [hpk] at hm
    · rw [assocInsert] at h
      simp only [if_neg hk] at h
      rcases List.mem_cons.1 h with h1 | h1
      · exact Or.inr ⟨by simp [h1], by simp [h1, hk]⟩
      · rcases ih hnd.2 h1 with h2 | h2
        · exact Or.inl h2
        · exact Or.inr ⟨List.mem_cons_of_mem _ h2.1, h2.2⟩

theorem assocLookup_filter_some {κ α : Type} [DecidableEq κ] {k : κ} {v : α}
    {P : κ × α → Bool} :
    ∀ {l : List (κ × α)}, assocLookup k l = some v → P (k, v) = true →
      assocLookup k (l.filter P) = some v := by
  intro l
  induction l with
  | nil => intro h _; simp [assocLookup] at h
  | cons q rest ih =>
    obtain ⟨k', v'⟩ := q
    intro h hP
    by_cases hk : k' = k
    · subst hk
      simp [assocLookup] at h
      subst h
      rw [List.filter_cons, if_pos hP]
      simp [assocLookup]
    · rw [assocLookup, if_neg hk] at h
      rw [List.filter_cons]
      by_cases hq : P (k', v') = true
      · rw [if_pos hq, assocLookup, if_neg hk]
        exact ih h hP
      · rw [if_neg hq]
        exact ih h hP

theorem assocLookup_filter_none {κ α : Type} [DecidableEq κ] {k : κ}
    {P : κ × α → Bool} (hP : ∀ v, P (k, v) = false) :
    ∀ l : List (κ × α), assocLookup k (l.filter P) = none := by
  intro l
  induction l with
  | nil => simp [assocLookup]
  | cons q rest ih =>
    obtain ⟨k', v'⟩ := q
    rw [List.filter_cons]
    by_cases hq : P (k', v') = true
    · rw [if_pos hq, assocLookup]
      have hk : k' ≠ k := by
        intro h
        rw [h, hP v'] at hq
        exact Bool.false_ne_true hq
      rw [if_neg hk]
      exact ih
    · rw [if_neg hq]
      exact ih

theorem projLen_lookup (k : String) :
    ∀ idx : List (String × CommandPosition),
      assocLookup k (projLen idx) = Option.map CommandPosition.length (assocLookup k idx) := by
  intro idx
  induction idx with
  | nil => simp [projLen, assocLookup]
  | cons p rest ih =>
    obtain ⟨k', cp⟩ := p
    by_cases hk : k' = k
    · simp [projLen, assocLookup, hk]
    · simp only [projLen, List.map_cons] at ih ⊢
      rw [assocLookup, if_neg hk, assocLookup, if_neg hk]
      exact ih

theorem projLen_insert (k : String) (cp : CommandPosition) :
    ∀ idx : List (String × CommandPosition),
      projLen (assocInsert k cp idx) = assocInsert k cp.length (projLen idx) := by
  intro idx
  induction idx with
  | nil => simp [projLen, assocInsert]
  | cons p rest ih =>
    obtain ⟨k', cp'⟩ := p
    by_cases hk : k' = k
    · simp [projLen, assocInsert, hk]
    · simp only [projLen, List.map_cons] at ih ⊢
      rw [assocInsert, if_neg hk, assocInsert, if_neg hk, List.map_cons]
      simp only [ih]

theorem projLen_erase (k : String) :
    ∀ idx : List (String × CommandPosition),
      projLen (assocErase k idx) = assocErase k (projLen idx) := by
  intro idx
  induction idx with
  | nil => simp [projLen, assocErase]
  | cons p rest ih =>
    obtain ⟨k', cp'⟩ := p
    by_cases hk : k' = k
    · simp [projLen, assocErase, hk]
    · simp only [projLen, List.map_cons] at ih ⊢
      rw [assocErase, if_neg hk, assocErase, if_neg hk, List.map_cons]
      simp only [ih]

theorem mem_insertSorted {x y : Nat} :
    ∀ {l : List Nat}, x ∈ insertSorted y l ↔ x = y ∨ x ∈ l := by
  intro l
  induction l with
  | nil => simp [insertSorted]
  | cons z rest ih =>
    rw [insertSorted]
    by_cases h : y ≤ z
    · simp [if_pos h]
    · rw [if_neg h]
      simp only [List.mem_cons, ih]
      tauto

theorem mem_sortGens {x : Nat} : ∀ {l : List Nat}, x ∈ sortGens l ↔ x ∈ l := by
  intro l
  induction l with
  | nil => simp [sortGens]
  | cons y rest ih =>
    have : sortGens (y :: rest) = insertSorted y (sortGens rest) := rfl
    rw [this, mem_insertSorted, ih, List.mem_cons]

theorem compact_snd_currentGen (s : Store) :
    (compact s).2.currentGen = s.currentGen + 2 := by
  rcases hL : compactLoop (dirEnsure (s.currentGen + 1) (dirEnsure (s.currentGen + 2) s.dir))
      s.safePoint (s.currentGen + 1) s.index
      { cache := s.wrCache, seg := [], newPos := 0, index := s.index } with ⟨w, st⟩
  cases w <;> simp [compact, hL]

theorem compact_ok_cases {s s' : Store} (h : compact s = (.ok, s')) :
    ∃ st, compactLoop (dirEnsure (s.currentGen + 1) (dirEnsure (s.currentGen + 2) s.dir))
        s.safePoint (s.currentGen + 1) s.index
        { cache := s.wrCache, seg := [], newPos := 0, index := s.index } = (.ok, st) ∧
      s' = { dir := (assocInsert (s.currentGen + 1) st.seg
                (dirEnsure (s.currentGen + 1) (dirEnsure (s.currentGen + 2) s.dir))).filter
                (fun p => s.currentGen + 1 ≤ p.1),
             index := st.index, currentGen := s.currentGen + 2, writerPos := 0,
             uncompacted := 0, safePoint := s.currentGen + 1,
             wrCache := closeStale (s.currentGen + 1) st.cache } := by
  rcases hL : compactLoop (dirEnsure (s.currentGen + 1) (dirEnsure (s.currentGen + 2) s.dir))
      s.safePoint (s.currentGen + 1) s.index
      { cache := s.wrCache, seg := [], newPos := 0, index := s.index } with ⟨w, st⟩
  cases w with
  | ok =>
    refine ⟨st, rfl, ?_⟩
    simp only [compact, hL] at h
    exact (Prod.mk.injEq _ _ _ _ ▸ h).2.symm
  | err e => simp [compact, hL] at h
  | panicked => simp [compact, hL] at h

theorem compactLoop_ok_index (d : Dir) (sp cg : Nat) :
    ∀ (entries : List (String × CommandPosition)) (st st' : CompState),
      NoDupKeys st.index →
      compactLoop d sp cg entries st = (.ok, st') →
      ∀ p ∈ st'.index,
        p.2.generation_num = cg ∨ (p ∈ st.index ∧ p.1 ∉ entries.map Prod.fst) := by
  intro entries
  induction entries with
  | nil =>
    intro st st' _ h p hp
    rw [compactLoop] at h
    injection h with _ h2
    subst h2
    exact Or.inr ⟨hp, by simp⟩
  | cons e rest ih =>
    obtain ⟨k, cp⟩ := e
    intro st st' hnd h p hp
    rcases hr : readCopyR d sp st.cache cp with ⟨o, c'⟩
    cases o with
    | ok it len =>
      have h' : compactLoop d sp cg rest
          { cache := c', seg := st.seg ++ [it], newPos := st.newPos + len,
            index := assocInsert k ⟨cg, st.newPos, len⟩ st.index } = (.ok, st') := by
        rw [compactLoop, hr] at h
        exact h
      have hnd' : NoDupKeys (assocInsert k (⟨cg, st.newPos, len⟩ : CommandPosition) st.index) :=
        noDupKeys_assocInsert hnd
      rcases ih _ st' hnd' h' p hp with hgen | ⟨hmem, hnotin⟩
      · exact Or.inl hgen
      · rcases mem_assocInsert hnd hmem with heq | ⟨hmem2, hne⟩
        · subst heq
          exact Or.inl rfl
        · refine Or.inr ⟨hmem2, ?_⟩
          rw [List.map_cons, List.mem_cons]
          rintro (h1 | h1)
          · exact hne h1
          · exact hnotin h1
    | err e' =>
      rw [compactLoop, hr] at h
      exact absurd h (by simp)
    | panicked =>
      rw [compactLoop, hr] at h
      exact absurd h (by simp)

theorem compact_ok_index_gens {s s' : Store} (hnd : NoDupKeys s.index)
    (h : compact s = (.ok, s')) :
    ∀ p ∈ s'.index, p.2.generation_num = s.currentGen + 1 := by
  obtain ⟨st, hL, hs'⟩ := compact_ok_cases h
  subst hs'
  intro p hp
  rcases compactLoop_ok_index _ _ _ s.index _ st hnd hL p hp with h1 | ⟨hmem, hnot⟩
  · exact h1
  · exact absurd (List.mem_map_of_mem Prod.fst hmem) hnot

theorem compact_ok_safePoint {s s' : Store} (h : compact s = (.ok, s')) :
    s'.safePoint = s.currentGen + 1 := by
  obtain ⟨st, _, hs'⟩ := compact_ok_cases h
  subst hs'
  rfl

theorem compact_safePoint_mono (s : Store) (hsp : s.safePoint ≤ s.currentGen) :
    s.safePoint ≤ (compact s).2.safePoint := by
  rcases hL : compactLoop (dirEnsure (s.currentGen + 1) (dirEnsure (s.currentGen + 2) s.dir))
      s.safePoint (s.currentGen + 1) s.index
      { cache := s.wrCache, seg := [], newPos := 0, index := s.index } with ⟨w, st⟩
  cases w <;> simp [compact, hL] <;> omega

theorem compact_safePoint_mono' {a : Nat} (s : Store) (h1 : s.safePoint = a)
    (hsp : s.safePoint ≤ s.currentGen) : a ≤ (compact s).2.safePoint :=
  h1 ▸ compact_safePoint_mono s hsp

theorem writerSet_safePoint_mono (io : Option Nat) (s : Store) (k v : String)
    (hsp : s.safePoint ≤ s.currentGen) :
    s.safePoint ≤ (writerSet io s k v).2.safePoint := by
  cases io with
  | some m => simp [writerSet]
  | none =>
    simp only [writerSet]
    split
    · exact compact_safePoint_mono' _ rfl hsp
    · exact le_refl _

theorem writerRemove_safePoint_mono (io : Option Nat) (s : Store) (k : String)
    (hsp : s.safePoint ≤ s.currentGen) :
    s.safePoint ≤ (writerRemove io s k).2.safePoint := by
  cases hlk : assocLookup k s.index with
  | none => simp [writerRemove, hlk]
  | some old =>
    cases io with
    | some m => simp [writerRemove, hlk]
    | none =>
      simp only [writerRemove, hlk]
      split
      · exact compact_safePoint_mono' _ rfl hsp
      · exact le_refl _

theorem load_stop_at_bad (g n : Nat) (rest : List LogItem) :
    ∀ (pre : List LogItem) (idx : List (String × CommandPosition)) (pos unc : Nat),
      pre.all LogItem.isGood = true →
      load g (pre ++ .bad n :: rest) idx pos unc =
        (.error .serde, (load g pre idx pos unc).2) := by
  intro pre
  induction pre with
  | nil => intro idx pos unc _; rfl
  | cons it pre' ih =>
    intro idx pos unc hall
    cases it with
    | bad m => simp [List.all_cons, LogItem.isGood] at hall
    | good c =>
      have hall' : pre'.all LogItem.isGood = true := by
        simp only [List.all_cons, LogItem.isGood, Bool.true_and] at hall
        exact hall
      cases c with
      | set k v =>
        simp only [List.cons_append, load]
        exact ih _ _ _ hall'
      | remove k =>
        simp only [List.cons_append, load]
        exact ih _ _ _ hall'

theorem load_spec (g : Nat) :
    ∀ (items : List LogItem) (idx : List (String × CommandPosition)) (pos unc : Nat),
      items.all LogItem.isGood = true →
      (load g items idx pos unc).1 = .ok (specFoldSeg (projLen idx, unc) items).2 ∧
      projLen (load g items idx pos unc).2 = (specFoldSeg (projLen idx, unc) items).1 := by
  intro items
  induction items with
  | nil => intro idx pos unc _; exact ⟨rfl, rfl⟩
  | cons it rest ih =>
    intro idx pos unc hall
    cases it with
    | bad m => simp [List.all_cons, LogItem.isGood] at hall
    | good c =>
      have hall' : rest.all LogItem.isGood = true := by
        simp only [List.all_cons, LogItem.isGood, Bool.true_and] at hall
        exact hall
      cases c with
      | set k v =>
        have hstep : specFoldSeg (projLen idx, unc) (.good (.set k v) :: rest) =
            specFoldSeg (specReplayStep (projLen idx, unc) (.set k v)) rest := rfl
        rw [hstep]
        cases hlk : assocLookup k idx with
        | none =>
          have hlive : assocLookup k (projLen idx) = none := by
            rw [projLen_lookup, hlk]
            rfl
          have hrs : specReplayStep (projLen idx, unc) (Command.set k v) =
              (assocInsert k (encLen (Command.set k v)) (projLen idx), unc) := by
            simp [specReplayStep, hlive]
          rw [hrs]
          simp only [load, hlk]
          have hproj : projLen (assocInsert k
                (⟨g, pos, pos + encLen (Command.set k v) - pos⟩ : CommandPosition) idx) =
              assocInsert k (encLen (Command.set k v)) (projLen idx) := by
            rw [projLen_insert]
            simp [Nat.add_sub_cancel_left]
          rw [← hproj]
          exact ih _ _ _ hall'
        | some old =>
          have hlive : assocLookup k (projLen idx) = some old.length := by
            rw [projLen_lookup, hlk]
            rfl
          have hrs : specReplayStep (projLen idx, unc) (Command.set k v) =
              (assocInsert k (encLen (Command.set k v)) (projLen idx), unc + old.length) := by
            simp [specReplayStep, hlive]
          rw [hrs]
          simp only [load, hlk]
          have hproj : projLen (assocInsert k
                (⟨g, pos, pos + encLen (Command.set k v) - pos⟩ : CommandPosition) idx) =
              assocInsert k (encLen (Command.set k v)) (projLen idx) := by
            rw [projLen_insert]
            simp [Nat.add_sub_cancel_left]
          rw [← hproj]
          exact ih _ _ _ hall'
      | remove k =>
        have hstep : specFoldSeg (projLen idx, unc) (.good (.remove k) :: rest) =
            specFoldSeg (specReplayStep (projLen idx, unc) (.remove k)) rest := rfl
        rw [hstep]
        cases hlk : assocLookup k idx with
        | none =>
          have hlive : assocLookup k (projLen idx) = none := by
            rw [projLen_lookup, hlk]
            rfl
          have hrs : specReplayStep (projLen idx, unc) (Command.remove k) =
              (assocErase k (projLen idx), unc + encLen (Command.remove k)) := by
            simp [specReplayStep, hlive]
          rw [hrs]
          simp only [load, hlk, Nat.add_sub_cancel_left]
          rw [← projLen_erase]
          exact ih _ _ _ hall'
        | some old =>
          have hlive : assocLookup k (projLen idx) = some old.length := by
            rw [projLen_lookup, hlk]
            rfl
          have hrs : specReplayStep (projLen idx, unc) (Command.remove k) =
              (assocErase k (projLen idx), unc + old.length + encLen (Command.remove k)) := by
            simp [specReplayStep, hlive]
          rw [hrs]
          simp only [load, hlk, Nat.add_sub_cancel_left]
          rw [← projLen_erase]
          exact ih _ _ _ hall'

theorem loadAll_spec (files : Dir) :
    ∀ (gens : List Nat) (idx : List (String × CommandPosition)) (unc : Nat),
      (∀ g ∈ gens, ∃ seg, assocLookup g files = some seg) →
      (∀ g seg, assocLookup g files = some seg → seg.all LogItem.isGood = true) →
      (loadAll gens files idx unc).1 =
        .ok (((gens.map (fun g => match assocLookup g files with
            | some items => items
            | none => [])).foldl specFoldSeg (projLen idx, unc)).2) ∧
      projLen (loadAll gens files idx unc).2 =
        ((gens.map (fun g => match assocLookup g files with
            | some items => items
            | none => [])).foldl specFoldSeg (projLen idx, unc)).1 := by
  intro gens
  induction gens with
  | nil => intro idx unc _ _; exact ⟨rfl, rfl⟩
  | cons g grest ih =>
    intro idx unc hex hwf
    obtain ⟨seg, hseg⟩ := hex g (List.mem_cons_self _ _)
    have hsegwf := hwf g seg hseg
    obtain ⟨ha, hb⟩ := load_spec g seg idx 0 unc hsegwf
    rcases hld : load g seg idx 0 unc with ⟨r, idx1⟩
    rw [hld] at ha hb
    have ha2 : r = Except.ok (specFoldSeg (projLen idx, unc) seg).2 := ha
    have hb2 : projLen idx1 = (specFoldSeg (projLen idx, unc) seg).1 := hb
    subst ha2
    have hmap : (g :: grest).map (fun g' => match assocLookup g' files with
        | some items => items
        | none => []) =
        seg :: grest.map (fun g' => match assocLookup g' files with
        | some items => items
        | none => []) := by
      simp [hseg]
    rw [hmap, List.foldl_cons]
    have hpair : specFoldSeg (projLen idx, unc) seg =
        (projLen idx1, (specFoldSeg (projLen idx, unc) seg).2) := by
      rw [hb2]
    have hunf : loadAll (g :: grest) files idx unc =
        loadAll grest files idx1 (specFoldSeg (projLen idx, unc) seg).2 := by
      simp only [loadAll, hseg, hld]
    rw [hunf, hpair]
    exact ih idx1 _ (fun g' hg' => hex g' (List.mem_cons_of_mem _ hg')) hwf

/-- Claim C1 (code-bug evaluation): sequential correctness of reads is
broken by the reader's descriptor-cache keying. In `exStore` the latest
successful set for key `b` is readable at its index position and holds
value `bb` (second and third conjuncts), yet `get b` through a pooled
reader whose cache holds generation 31 panics instead of returning
`some "bb"`: `read_and` keys its `contains_key` check on
`cmd_position.position` (31, colliding with the cached generation 31),
skips the open, and `readers.get_mut(&30).unwrap()` panics because
generation 30 was never cached. The worker thread dies before answering,
so the engine surfaces a channel error, not the latest set value. -/
theorem c1_get_panics_despite_live_record :
    storeGet exStore [[31]] "b" = (.panicked, []) ∧
    assocLookup "b" exStore.index = some ⟨30, 31, 32⟩ ∧
    recordAt exSeg30 0 31 32 = some (.set "b" "bb") := by
  decide

/-- Claim C2 counterexample: opening a directory whose single segment is a
well-formed record followed by three unparseable bytes does not succeed —
`load` propagates the deserialization error through `cmd?` and
`KvStore::open` fails with it. -/
theorem c2_open_fails_on_malformed_tail :
    openStore [(1, [.good (.set "a" "1"), .bad 3])] = .error .serde := rfl

/-- Claim C2 (amended): when `load()` hits the first malformed record it
stops there — the index it hands back is exactly the one built from the
well-formed prefix, items past the malformed one are never examined, and
the segment file is never modified — but `load` returns the `Serde` error
instead of swallowing it, so `open()` over such a directory fails with
that error rather than succeeding. -/
theorem c2_load_stops_and_open_errors (g n : Nat) (rest pre : List LogItem)
    (idx : List (String × CommandPosition)) (pos unc : Nat)
    (hpre : pre.all LogItem.isGood = true) :
    load g (pre ++ .bad n :: rest) idx pos unc =
      (.error .serde, (load g pre idx pos unc).2) ∧
    openStore [(g, pre ++ .bad n :: rest)] = .error .serde := by
  refine ⟨load_stop_at_bad g n rest pre idx pos unc hpre, ?_⟩
  have h := load_stop_at_bad g n rest pre [] 0 0 hpre
  have hlook : assocLookup g [(g, pre ++ LogItem.bad n :: rest)] =
      some (pre ++ LogItem.bad n :: rest) := by
    simp [assocLookup]
  have hLA : loadAll (sortGens ([(g, pre ++ LogItem.bad n :: rest)].map Prod.fst))
      [(g, pre ++ LogItem.bad n :: rest)] [] 0 =
      (.error .serde, (load g pre [] 0 0).2) := by
    show loadAll [g] [(g, pre ++ LogItem.bad n :: rest)] [] 0 = _
    simp only [loadAll, hlook, h]
  simp only [openStore, hLA]

/-- Witness for the amended C2 at a concrete directory. -/
theorem c2_witness :
    ([LogItem.good (.set "x" "y")].all LogItem.isGood = true) ∧
    (load 1 ([.good (.set "x" "y")] ++ .bad 5 :: []) [] 0 0 =
      (.error .serde, (load 1 [.good (.set "x" "y")] [] 0 0).2) ∧
     openStore [(1, [.good (.set "x" "y")] ++ .bad 5 :: [])] = .error .serde) :=
  ⟨by decide, c2_load_stops_and_open_errors 1 5 [] [.good (.set "x" "y")] [] 0 0 (by decide)⟩

/-- Claim C3 (code-bug evaluation): `read_and` keys the descriptor-cache
membership check on `cmd_position.position`, not `pos.generation`. First
conjunct: with generation 31 cached, a read at `(gen 30, pos 31)` matches
the check on the position, skips the open, and the subsequent
`get_mut(&30).unwrap()` panics — the claim instead requires opening
`30.log` and inserting it under generation 30 before the read. Second
conjunct: with generation 30 already cached, the same read opens `30.log`
again (opened-generations list `[30]`) — the claim instead requires
reusing the cached descriptor with no file open. -/
theorem c3_cache_check_keyed_on_position :
    readCommandR exDir 30 [31] ⟨30, 31, 32⟩ = (.panicked, [31], []) ∧
    readCommandR exDir 30 [30] ⟨30, 31, 32⟩ = (.ok (.set "b" "bb"), [30], [30]) := by
  decide

/-- Claim C4 (confirmed): when `compact()` commits (returns `Ok`), the
safe point has been advanced to the compaction generation, every index
entry was rewritten to that generation (hence `generation ≥ safe_point`
for every entry), and the safe point never decreases — neither across a
committed compaction (it moves from a value `≤ current` to `current + 1`)
nor across `set`/`remove`/`compact` in general, whatever the io oracle
and the outcome. -/
theorem c4_safe_point_invariant (s : Store) (hnd : NoDupKeys s.index)
    (hsp : s.safePoint ≤ s.currentGen) :
    (∀ s', compact s = (.ok, s') →
      s'.safePoint = s.currentGen + 1 ∧
      (∀ p ∈ s'.index, p.2.generation_num = s'.safePoint) ∧
      (∀ p ∈ s'.index, s'.safePoint ≤ p.2.generation_num) ∧
      s.safePoint ≤ s'.safePoint) ∧
    (∀ io k v, s.safePoint ≤ (writerSet io s k v).2.safePoint) ∧
    (∀ io k, s.safePoint ≤ (writerRemove io s k).2.safePoint) ∧
    s.safePoint ≤ (compact s).2.safePoint := by
  refine ⟨?_, ?_, ?_, compact_safePoint_mono s hsp⟩
  · intro s' h
    have hsf := compact_ok_safePoint h
    have hg := compact_ok_index_gens hnd h
    refine ⟨hsf, ?_, ?_, ?_⟩
    · intro p hp
      rw [hg p hp, hsf]
    · intro p hp
      rw [hg p hp, hsf]
    · rw [hsf]
      omega
  · intro io k v
    exact writerSet_safePoint_mono io s k v hsp
  · intro io k
    exact writerRemove_safePoint_mono io s k hsp

/-- Witness for C4 at a concrete store whose compaction succeeds. -/
theorem c4_witness :
    NoDupKeys wStore.index ∧ wStore.safePoint ≤ wStore.currentGen ∧
    (compact wStore).2.safePoint = wStore.currentGen + 1 ∧
    (∀ p ∈ (compact wStore).2.index, p.2.generation_num = (compact wStore).2.safePoint) :=
  ⟨show (wStore.index.map Prod.fst).Nodup by decide, by decide,
   by
    have h := (c4_safe_point_invariant wStore
      (show (wStore.index.map Prod.fst).Nodup by decide) (by decide)).1
      (compact wStore).2 (by rfl)
    exact h.1,
   by
    have h := (c4_safe_point_invariant wStore
      (show (wStore.index.map Prod.fst).Nodup by decide) (by decide)).1
      (compact wStore).2 (by rfl)
    exact h.2.1⟩

/-- Claim C5 (confirmed): a committed `compact()` on current generation
`g` leaves the writer at generation `g + 2`, the compacted output under
generation `g + 1` (its segment is in the directory), and the directory
holding no segment of generation below `g + 1` — exactly the segments
with generation `< g + 1` were selected for unlinking. Subsequent writes
append to `currentGen = g + 2` by definition of `writerSet`. -/
theorem c5_compaction_generation_arithmetic (s s' : Store)
    (h : compact s = (.ok, s')) :
    s'.currentGen = s.currentGen + 2 ∧
    (∃ seg, assocLookup (s.currentGen + 1) s'.dir = some seg) ∧
    (∀ p ∈ s'.dir, s.currentGen + 1 ≤ p.1) ∧
    (∀ g', g' < s.currentGen + 1 → assocLookup g' s'.dir = none) := by
  obtain ⟨st, hL, hs'⟩ := compact_ok_cases h
  subst hs'
  refine ⟨rfl, ⟨st.seg, ?_⟩, ?_, ?_⟩
  · apply assocLookup_filter_some (assocLookup_insert_self _ _ _)
    simp
  · intro p hp
    have hm := List.mem_filter.1 hp
    simpa using hm.2
  · intro g' hg'
    apply assocLookup_filter_none
    intro u
    simp only [decide_eq_false_iff_not]
    omega

/-- Witness for C5 at a concrete store whose compaction succeeds. -/
theorem c5_witness :
    (compact wStore).2.currentGen = wStore.currentGen + 2 ∧
    (∃ seg, assocLookup (wStore.currentGen + 1) (compact wStore).2.dir = some seg) :=
  ⟨(c5_compaction_generation_arithmetic wStore (compact wStore).2 (by rfl)).1,
   (c5_compaction_generation_arithmetic wStore (compact wStore).2 (by rfl)).2.1⟩

/-- Claim C6 counterexample: a `get` issued with an empty reader pool does
not always fail — on a key absent from the index `get` answers `Ok None`
without ever popping a reader, because the source consults the index
before touching the pool. -/
theorem c6_get_on_absent_key_with_empty_pool_succeeds :
    storeGet wStore [] "zz" = (.ok none, []) ∧
    GOut.ok none ≠ GOut.err (.stringError "No more readers") := by
  decide

/-- Claim C6 (amended): with an empty reader pool, a `get` whose key is
present in the index fails immediately with the `No more readers` string
error; a `get` on an absent key returns `Ok None` without popping a
reader, since the index is consulted before the pool. -/
theorem c6_empty_pool_fails_only_on_index_hit (s : Store) (k : String) :
    ((∃ cp, assocLookup k s.index = some cp) →
      storeGet s [] k = (.err (.stringError "No more readers"), [])) ∧
    (assocLookup k s.index = none → storeGet s [] k = (.ok none, [])) := by
  constructor
  · rintro ⟨cp, h⟩
    simp [storeGet, h]
  · intro h
    simp [storeGet, h]

/-- Witness for the amended C6 on both branches. -/
theorem c6_witness :
    assocLookup "a" wStore.index = some ⟨1, 0, 31⟩ ∧
    storeGet wStore [] "a" = (.err (.stringError "No more readers"), []) ∧
    assocLookup "zz" wStore.index = none ∧
    storeGet wStore [] "zz" = (.ok none, []) :=
  ⟨by decide,
   (c6_empty_pool_fails_only_on_index_hit wStore "a").1 ⟨⟨1, 0, 31⟩, by decide⟩,
   by decide,
   (c6_empty_pool_fails_only_on_index_hit wStore "zz").2 (by decide)⟩

/-- Claim C7 (confirmed): removing a key that is not in the index fails
with `KeyNotFound` and leaves the entire store — log files included —
exactly as it was, regardless of the io oracle (no append is attempted). -/
theorem c7_remove_absent_key (io : Option Nat) (s : Store) (k : String)
    (h : assocLookup k s.index = none) :
    writerRemove io s k = (.err .keyNotFound, s) := by
  simp [writerRemove, h]

/-- Witness for C7 at a concrete store and absent key. -/
theorem c7_witness :
    assocLookup "zz" wStore.index = none ∧
    writerRemove none wStore "zz" = (.err .keyNotFound, wStore) :=
  ⟨by decide, c7_remove_absent_key none wStore "zz" (by decide)⟩

/-- Claim C8 (confirmed): when the serialize-and-flush step of `set` or
`remove` fails (io oracle `some m`), the operation returns the error and
the index is exactly the one from before the operation — the new position
was never inserted and no entry was evicted — even though the log may
have gained unparseable partial bytes and the writer position may have
moved. -/
theorem c8_failed_append_leaves_index (s : Store) (k v : String) (m : Nat) :
    ((writerSet (some m) s k v).1 = .err .io ∧
     (writerSet (some m) s k v).2.index = s.index) ∧
    (∀ old, assocLookup k s.index = some old →
      (writerRemove (some m) s k).1 = .err .io ∧
      (writerRemove (some m) s k).2.index = s.index) := by
  refine ⟨⟨rfl, rfl⟩, ?_⟩
  intro old h
  constructor <;> simp [writerRemove, h]

/-- Witness for C8 on a concrete store, for both operations. -/
theorem c8_witness :
    assocLookup "a" wStore.index = some ⟨1, 0, 31⟩ ∧
    (writerRemove (some 7) wStore "a").1 = .err .io ∧
    (writerRemove (some 7) wStore "a").2.index = wStore.index ∧
    (writerSet (some 7) wStore "a" "x").2.index = wStore.index :=
  ⟨by decide,
   ((c8_failed_append_leaves_index wStore "a" "x" 7).2 ⟨1, 0, 31⟩ (by decide)).1,
   ((c8_failed_append_leaves_index wStore "a" "x" 7).2 ⟨1, 0, 31⟩ (by decide)).2,
   (c8_failed_append_leaves_index wStore "a" "x" 7).1.2⟩

/-- Claim C9 (confirmed): a successful `remove` adds to `uncompacted`
both the evicted index entry's recorded length and the byte length of the
appended `Remove` record; a successful `set` that overwrites adds the old
entry's length (and one that does not overwrite adds nothing); and in
every case — including a fresh (non-overwriting) set issued while the
counter already sits above the threshold, as can happen right after
reopen — compaction is invoked, observable as the generation jumping by
two, exactly when the updated counter strictly exceeds
`COMPACTION_THRESHOLD` (1 MiB) at the end of the operation. -/
theorem c9_uncompacted_accounting_and_trigger (s : Store) (k v : String) :
    (∀ old, assocLookup k s.index = some old →
      (s.uncompacted + old.length + encLen (Command.remove k) ≤ COMPACTION_THRESHOLD →
        (writerRemove none s k).1 = .ok ∧
        (writerRemove none s k).2.uncompacted =
          s.uncompacted + old.length + encLen (Command.remove k) ∧
        (writerRemove none s k).2.currentGen = s.currentGen) ∧
      (s.uncompacted + old.length + encLen (Command.remove k) > COMPACTION_THRESHOLD →
        (writerRemove none s k).2.currentGen = s.currentGen + 2)) ∧
    (∀ old, assocLookup k s.index = some old →
      (s.uncompacted + old.length ≤ COMPACTION_THRESHOLD →
        (writerSet none s k v).1 = .ok ∧
        (writerSet none s k v).2.uncompacted = s.uncompacted + old.length ∧
        (writerSet none s k v).2.currentGen = s.currentGen) ∧
      (s.uncompacted + old.length > COMPACTION_THRESHOLD →
        (writerSet none s k v).2.currentGen = s.currentGen + 2)) ∧
    (assocLookup k s.index = none →
      (s.uncompacted ≤ COMPACTION_THRESHOLD →
        (writerSet none s k v).1 = .ok ∧
        (writerSet none s k v).2.uncompacted = s.uncompacted ∧
        (writerSet none s k v).2.currentGen = s.currentGen) ∧
      (s.uncompacted > COMPACTION_THRESHOLD →
        (writerSet none s k v).2.currentGen = s.currentGen + 2)) := by
  refine ⟨?_, ?_, ?_⟩
  · intro old hold
    constructor
    · intro hle
      have hcond : ¬ (s.uncompacted + old.length + encLen (Command.remove k) >
          COMPACTION_THRESHOLD) := by omega
      simp only [writerRemove, hold, Nat.add_sub_cancel_left, if_neg hcond]
      exact ⟨trivial, trivial, trivial⟩
    · intro hgt
      simp only [writerRemove, hold, Nat.add_sub_cancel_left, if_pos hgt]
      exact compact_snd_currentGen _
  · intro old hold
    constructor
    · intro hle
      have hcond : ¬ (s.uncompacted + old.length > COMPACTION_THRESHOLD) := by omega
      simp only [writerSet, hold, if_neg hcond]
      exact ⟨trivial, trivial, trivial⟩
    · intro hgt
      simp only [writerSet, hold, if_pos hgt]
      exact compact_snd_currentGen _
  · intro hold
    constructor
    · intro hle
      have hcond : ¬ (s.uncompacted > COMPACTION_THRESHOLD) := by omega
      simp only [writerSet, hold, if_neg hcond]
      exact ⟨trivial, trivial, trivial⟩
    · intro hgt
      simp only [writerSet, hold, if_pos hgt]
      exact compact_snd_currentGen _

/-- Witness for C9: a remove that crosses the threshold and triggers
compaction, an overwriting set below the threshold, and a fresh set
issued with the counter already above the threshold, which also triggers
compaction. -/
theorem c9_witness :
    assocLookup "a" w9.index = some ⟨1, 0, 31⟩ ∧
    w9.uncompacted + 31 + encLen (Command.remove "a") > COMPACTION_THRESHOLD ∧
    (writerRemove none w9 "a").2.currentGen = w9.currentGen + 2 ∧
    wStore.uncompacted + 31 ≤ COMPACTION_THRESHOLD ∧
    (writerSet none wStore "a" "x").2.uncompacted = wStore.uncompacted + 31 ∧
    (writerSet none { w9 with uncompacted := COMPACTION_THRESHOLD + 1 } "zz" "x").2.currentGen =
      ({ w9 with uncompacted := COMPACTION_THRESHOLD + 1 } : Store).currentGen + 2 :=
  ⟨by decide, by decide,
   ((c9_uncompacted_accounting_and_trigger w9 "a" "x").1 ⟨1, 0, 31⟩ (by decide)).2 (by decide),
   by decide,
   (((c9_uncompacted_accounting_and_trigger wStore "a" "x").2.1 ⟨1, 0, 31⟩
      (by decide)).1 (by decide)).2.1,
   ((c9_uncompacted_accounting_and_trigger
      { w9 with uncompacted := COMPACTION_THRESHOLD + 1 } "zz" "x").2.2
      (by decide)).2 (by decide)⟩

/-- Claim C10 (confirmed): on open of an existing directory whose
segments all parse, opening succeeds and the writer's `uncompacted`
counter equals the claim's replay accounting: fold over all segments in
ascending generation order, carrying the live map across segments, adding
the superseded entry's length for each overwriting `Set`, and both the
superseded entry's length (when present) and the record's own byte length
for each `Remove` (`specReplayStep`/`specReplayUnc` are written from the
claim's wording; `openStore`/`load` from the source). -/
theorem c10_open_replay_accounting (files : Dir)
    (hwf : ∀ p ∈ files, p.2.all LogItem.isGood = true) :
    ∃ st, openStore files = .ok st ∧ st.uncompacted = specReplayUnc files := by
  have h1 : ∀ g ∈ sortGens (files.map Prod.fst), ∃ seg, assocLookup g files = some seg := by
    intro g hg
    exact lookup_of_mem_keys (mem_sortGens.1 hg)
  have h2 : ∀ g seg, assocLookup g files = some seg → seg.all LogItem.isGood = true := by
    intro g seg h
    exact hwf (g, seg) (assocLookup_mem h)
  obtain ⟨ha, hb⟩ := loadAll_spec files (sortGens (files.map Prod.fst)) [] 0 h1 h2
  rcases hld : loadAll (sortGens (files.map Prod.fst)) files [] 0 with ⟨r, idx⟩
  rw [hld] at ha
  have ha2 : r = Except.ok ((((sortGens (files.map Prod.fst)).map (fun g =>
      match assocLookup g files with
      | some items => items
      | none => [])).foldl specFoldSeg (projLen [], 0)).2) := ha
  subst ha2
  refine ⟨{ dir := dirEnsure ((sortGens (files.map Prod.fst)).getLast?.getD 0 + 1) files,
            index := idx,
            currentGen := (sortGens (files.map Prod.fst)).getLast?.getD 0 + 1,
            writerPos := 0,
            uncompacted := (((sortGens (files.map Prod.fst)).map (fun g =>
              match assocLookup g files with
              | some items => items
              | none => [])).foldl specFoldSeg (projLen [], 0)).2,
            safePoint := 0, wrCache := [] }, ?_, rfl⟩
  simp only [openStore, hld]

/-- Witness for C10 at a concrete two-generation directory where an
overwrite and a removal in generation 2 supersede data from generation 1. -/
theorem c10_witness :
    (∀ p ∈ wFiles, p.2.all LogItem.isGood = true) ∧
    (∃ st, openStore wFiles = .ok st ∧ st.uncompacted = specReplayUnc wFiles) :=
  ⟨by decide, c10_open_replay_accounting wFiles (by decide)⟩
